import Mathlib

/-!
# LaunchpadNX: a verification development for `launchpad.go`

The program is one Go file whose `main` is a linear pipeline.  The embedding below
follows the source block by block:

* Go strings are Lean `String`s (the lines read from the terminal are taken to be
  UTF-8 text); comparison of strings is byte-wise on the UTF-8 encoding, as in the
  Go runtime.
* The library calls `strings.Split`, `strconv.Atoi` (for a 64-bit `int`) and
  `sort.Strings` are modelled by the functions `split`, `atoi` and `sortStrings`.
* `inArray`, `copy`, `copyFolder` are translated function by function.
* The parts of `main` are translated as pure functions of the values read from
  the terminal (the feature token list and the No-GC flag).
* Calls into the operating system are modelled by an explicit file-system state.
-/

namespace LaunchpadNX

/-! ## Go strings -/

/-- UTF-8 encoding of one code point, as a list of byte values. -/
def utf8EncodeNat (c : Nat) : List Nat :=
  if c < 0x80 then [c]
  else if c < 0x800 then [0xC0 + c / 64, 0x80 + c % 64]
  else if c < 0x10000 then [0xE0 + c / 4096, 0x80 + c / 64 % 64, 0x80 + c % 64]
  else [0xF0 + c / 262144, 0x80 + c / 4096 % 64, 0x80 + c / 64 % 64, 0x80 + c % 64]

/-- Bytes of a Go string. -/
def goBytes (s : String) : List Nat :=
  s.data.flatMap (fun ch => utf8EncodeNat ch.toNat)

/-- Byte-wise lexicographic "less than", the order of the Go `<` on strings. -/
def bytesLess : List Nat → List Nat → Bool
  | [], [] => false
  | [], _ :: _ => true
  | _ :: _, [] => false
  | a :: as, b :: bs =>
    if a < b then true else if b < a then false else bytesLess as bs

/-- Go's `a < b` on strings, which is what `sort.Strings` uses as `Less`. -/
def goLess (a b : String) : Bool := bytesLess (goBytes a) (goBytes b)

/-- One pass of the inner loop of insertion sort: `x` is placed in front of the
first element that is strictly greater than it. -/
def insertSorted (x : String) : List String → List String
  | [] => [x]
  | y :: ys => if goLess x y then x :: y :: ys else y :: insertSorted x ys

/-- The library call `sort.Strings(c)`: ascending order, by insertion from left to
right (the algorithm the Go library runs on slices this short). -/
def sortStrings (l : List String) : List String :=
  l.foldl (fun acc x => insertSorted x acc) []

/-! ## `inArray` (launchpad.go 47-54) -/

/-- Linear search: true iff some element of `array` equals `item`. -/
def inArray (array : List String) (item : String) : Bool :=
  match array with
  | [] => false
  | v :: rest => if v = item then true else inArray rest item

/-! ## Boot configuration (launchpad.go 356-395, 461-466, 520-524) -/

/-- The four-way branch of lines 361-395: the pair `(hekateConfig, c)`. -/
def initialConfig (nogc : Bool) (features : List String) : List String × List String :=
  if nogc && inArray features "4" then
    (["[Stock]", "", "[Stock (nogc)]", "kip1patch=nogc", "", "[CFW]"],
     ["kip1=cfw/*", "kip1patch=nogc,nosigchk", "secmon=cfw/exosphere.bin"])
  else if nogc then
    (["[Stock]", "", "[Stock (nogc)]", "kip1patch=nogc", "", "[CFW]"],
     ["kip1=cfw/*", "kip1patch=nogc", "secmon=cfw/exosphere.bin"])
  else if inArray features "4" then
    (["[Stock]", "", "[CFW]"],
     ["kip1=cfw/*", "kip1patch=nosigchk", "secmon=cfw/exosphere.bin"])
  else
    (["[Stock]", "", "[CFW]"],
     ["kip1=cfw/*", "secmon=cfw/exosphere.bin"])

/-- The slice `c` when line 521 is reached: the branch value, with
`atmosphere=1` appended at line 465 when feature 3 is selected. -/
def cfwKeys (nogc : Bool) (features : List String) : List String :=
  let c := (initialConfig nogc features).2
  if inArray features "3" then c ++ ["atmosphere=1"] else c

/-- The slice `c` after `sort.Strings(c)` at line 521. -/
def cfwEntries (nogc : Bool) (features : List String) : List String :=
  sortStrings (cfwKeys nogc features)

/-- The slice `hekateConfig` after the loop of lines 522-524, which appends the
sorted keys one by one. -/
def hekateConfig (nogc : Bool) (features : List String) : List String :=
  (cfwEntries nogc features).foldl (fun acc v => acc ++ [v]) (initialConfig nogc features).1

/-! ## Writing `hekate_ipl.ini` (launchpad.go 526-536) -/

/-- The loop of lines 528-535 from index `i` on: `file` is the text written so far,
`len` is `len(hekateConfig)`; the last line is written bare, every other line with
a line feed after it.  Every `WriteString` is taken to succeed (a failure ends the
run in `errCheck`). -/
def writeLines (len : Nat) : Nat → List String → String → String
  | _, [], file => file
  | i, v :: rest, file =>
    writeLines len (i + 1) rest (if i + 1 = len then file ++ v else file ++ (v ++ "\n"))

/-- The text of `sd_root/bootloader/hekate_ipl.ini` when the loop is over: the
file is created empty by `os.Create` and the loop runs from index 0. -/
def hekateIplIni (hekateConfig : List String) : String :=
  writeLines hekateConfig.length 0 hekateConfig ""

/-! ## Feature prompt (launchpad.go 158-187) -/

/-- Cutting a text at every occurrence of the one-character separator `sep`: the
result always has one element more than there are separators.  With `sep` a space
this is the library call `strings.Split(s, " ")` on the characters of `s`. -/
def splitChars (sep : Char) : List Char → List (List Char)
  | [] => [[]]
  | c :: cs =>
    if c = sep then [] :: splitChars sep cs
    else
      match splitChars sep cs with
      | [] => [[c]]
      | tok :: toks => (c :: tok) :: toks

/-- The library call `strings.Split(resp, " ")`. -/
def split (resp : String) : List String :=
  (splitChars ' ' resp.data).map String.mk

/-- Value of an ASCII decimal digit. -/
def digitValue (c : Char) : Option Nat :=
  if 48 ≤ c.toNat ∧ c.toNat ≤ 57 then some (c.toNat - 48) else none

/-- Decimal digits to a number, most significant first; `none` on a character
that is not a digit. -/
def parseDigits : List Char → Nat → Option Nat
  | [], n => some n
  | c :: cs, n =>
    match digitValue c with
    | none => none
    | some d => parseDigits cs (n * 10 + d)

/-- The library call `strconv.Atoi` (64-bit `int`): an optional sign, then one or
more decimal digits; `none` stands for a non-nil error (wrong syntax, or a value
out of the range of `int`). -/
def atoi (s : String) : Option Int :=
  let signed : Bool × List Char :=
    match s.data with
    | '-' :: r => (true, r)
    | '+' :: r => (false, r)
    | cs => (false, cs)
  if signed.2 = [] then none
  else
    match parseDigits signed.2 0 with
    | none => none
    | some n =>
      let v : Int := if signed.1 then -(n : Int) else (n : Int)
      if -(2 : Int) ^ 63 ≤ v ∧ v ≤ (2 : Int) ^ 63 - 1 then some v else none

/-- What one pass through the body of a prompt loop does to the run. -/
inductive PromptResult where
  /-- The loop is left by `break` with this value of `features`. -/
  | selected (features : List String)
  /-- The process ends in `os.Exit` with this status. -/
  | exited (status : Nat)
  /-- The loop body ends without `break`: the prompt is shown again. -/
  | again
  deriving DecidableEq, Repr

/-- Lines 172-183: `good` starts false on every pass; for each `v` of `nums` the
first token is parsed again; an error clears `good`, a value equal to `v` sets
it. -/
def goodFlag (first : String) : Bool :=
  [1, 2, 3, 4, 5, 6].foldl
    (fun (good : Bool) (v : Int) =>
      match atoi first with
      | none => false
      | some i => if i = v then true else good)
    false

/-- One pass of the loop of lines 160-187 on the line `resp` returned by `input`.
`features[0]` is total here because `strings.Split` never returns an empty slice. -/
def featurePrompt (resp : String) : PromptResult :=
  let features := split resp
  let first := features.headD ""
  if first = "all" then .selected ["1", "2", "3", "4", "5", "6"]
  else if first = "exit" then .exited 0
  else if first = "" then .again
  else if goodFlag first = true then .selected features
  else .again

/-- How the feature loop stands after a finite sequence of input lines. -/
inductive LoopResult where
  /-- The loop has ended with this selection. -/
  | selected (features : List String)
  /-- The process has ended with this status. -/
  | exited (status : Nat)
  /-- Every line given so far was rejected; the prompt is still open. -/
  | prompting
  deriving DecidableEq, Repr

/-- The loop of lines 160-187 run on the successive lines returned by `input`. -/
def featureLoop : List String → LoopResult
  | [] => .prompting
  | resp :: rest =>
    match featurePrompt resp with
    | .selected features => .selected features
    | .exited status => .exited status
    | .again => featureLoop rest

/-! ## Package installation (launchpad.go 254-291) -/

/-- The slice `args` when line 283 is reached.  `goos` is `runtime.GOOS`;
`pacmanFound` says that `exec.LookPath("pacman")` returned a nil error. -/
def installArgs (goos : String) (pacmanFound : Bool) (features : List String) : List String :=
  let args0 : List String :=
    if goos = "windows" then
      ["-S", "--noconfirm", "--needed", "switch-dev", "devkitARM"]
    else if goos = "linux" then
      if pacmanFound then
        ["pacman", "-S", "--noconfirm", "--needed", "switch-dev", "devkitARM"]
      else
        ["dkp-pacman", "-S", "--noconfirm", "--needed", "switch-dev", "devkitARM"]
    else []
  let args1 := if inArray features "1" then args0 ++ ["switch-freetype"] else args0
  let args2 :=
    if inArray features "2" then args1 ++ ["switch-freetype", "switch-libconfig"] else args1
  let args5 := if inArray features "5" then args2 ++ ["switch-mpg123"] else args2
  if inArray features "6" then args5 ++ ["switch-curl"] else args5

/-- Lines 283-291: the command that is run, as the pair of the program name and
its arguments (`exec.Command(name, args...)`); no command on another system. -/
def installCommand (goos : String) (pacmanFound : Bool) (features : List String) :
    Option (String × List String) :=
  if goos = "windows" then some ("pacman", installArgs goos pacmanFound features)
  else if goos = "linux" then some ("sudo", installArgs goos pacmanFound features)
  else none

/-! ## The pipeline from the first clone to the configuration file
(launchpad.go 293-354, 397-518, 526) -/

/-- One external action of the pipeline, with the arguments the source passes. -/
inductive Step where
  /-- The call `git.PlainClone(dir, false, &git.CloneOptions{URL: url})`. -/
  | clone (dir url : String)
  /-- The command `exec.Command("make", args...)` run with `cmd.Dir = dir`. -/
  | make (dir : String) (args : List String)
  /-- The call `os.MkdirAll(path, 0700)`. -/
  | mkdirAll (path : String)
  /-- The call `copy(src, dst)`. -/
  | copy (src dst : String)
  /-- The call `copyFolder(src, dst)`. -/
  | copyFolder (src dst : String)
  /-- The call `os.Create(path)`. -/
  | create (path : String)
  deriving DecidableEq, Repr

/-- Lines 293-315: the payload loader. -/
def hekateSteps (makeThreadFlag : String) : List Step :=
  [ .clone "build/hekate" "https://github.com/CTCaer/hekate.git",
    .make "build/hekate" [makeThreadFlag],
    .copy "build/hekate/output/hekate.bin" "hekate.bin",
    .mkdirAll "sd_root/bootloader/sys",
    .copy "build/hekate/output/libsys_lp0.bso" "sd_root/bootloader/sys/libsys_lp0.bso" ]

/-- Lines 317-354: the firmware core. -/
def atmosphereSteps (makeThreadFlag : String) : List Step :=
  [ .clone "build/atmosphere" "https://github.com/Atmosphere-NX/Atmosphere.git",
    .make "build/atmosphere/exosphere" [makeThreadFlag],
    .make "build/atmosphere/stratosphere" [makeThreadFlag],
    .mkdirAll "sd_root/atmosphere/titles/0100000000000036/exefs",
    .copy "build/atmosphere/stratosphere/creport/creport.npdm"
      "sd_root/atmosphere/titles/0100000000000036/exefs/main.npdm",
    .copy "build/atmosphere/stratosphere/creport/creport.nso"
      "sd_root/atmosphere/titles/0100000000000036/exefs/main",
    .mkdirAll "sd_root/cfw",
    .copy "build/atmosphere/exosphere/exosphere.bin" "sd_root/cfw/exosphere.bin",
    .copy "build/atmosphere/stratosphere/loader/loader.kip" "sd_root/cfw/loader.kip",
    .copy "build/atmosphere/stratosphere/pm/pm.kip" "sd_root/cfw/pm.kip",
    .copy "build/atmosphere/stratosphere/sm/sm.kip" "sd_root/cfw/sm.kip" ]

/-- Lines 397-419: the save manager. -/
def checkpointSteps (makeThreadFlag : String) (features : List String) : List Step :=
  if inArray features "1" then
    [ .clone "build/checkpoint" "https://github.com/FlagBrew/Checkpoint.git",
      .make "build/checkpoint/switch" [makeThreadFlag],
      .mkdirAll "sd_root/switch",
      .mkdirAll "sd_root/switch/Checkpoint",
      .copy "build/checkpoint/switch/out/Checkpoint.nro"
        "sd_root/switch/Checkpoint/Checkpoint.nro" ]
  else []

/-- Lines 423-439: the clone, build and copy of the homebrew loader. -/
def hbloaderCycle (makeThreadFlag : String) : List Step :=
  [ .clone "build/hbloader" "https://github.com/switchbrew/nx-hbloader.git",
    .make "build/hbloader" [makeThreadFlag],
    .copy "build/hbloader/hbl.nsp" "sd_root/atmosphere/hbl.nsp" ]

/-- Lines 442-458: the clone, build and copy of the homebrew menu. -/
def hbmenuCycle (makeThreadFlag : String) : List Step :=
  [ .clone "build/hbmenu" "https://github.com/switchbrew/nx-hbmenu.git",
    .make "build/hbmenu" ["nx", makeThreadFlag],
    .copy "build/hbmenu/hbmenu.nro" "sd_root/hbmenu.nro" ]

/-- Lines 421-459: the homebrew loader and menu. -/
def homebrewSteps (makeThreadFlag : String) (features : List String) : List Step :=
  if inArray features "2" || inArray features "1" || inArray features "6" then
    (if !inArray features "no-hbloader" then hbloaderCycle makeThreadFlag else [])
    ++ hbmenuCycle makeThreadFlag
  else []

/-- Lines 461-466, the file copy (the key appended to `c` is in `cfwKeys`). -/
def layeredfsSteps (features : List String) : List Step :=
  if inArray features "3" then
    [ .copy "build/atmosphere/stratosphere/fs_mitm/fs_mitm.kip" "sd_root/cfw/fs_mitm.kip" ]
  else []

/-- Lines 468-474: the signature patches. -/
def sigpatchSteps (features : List String) : List Step :=
  if inArray features "4" then
    [ .mkdirAll "sd_root/atmosphere/exefs_patches",
      .copyFolder "fake_tickets" "sd_root/atmosphere/exefs_patches/fake_tickets" ]
  else []

/-- Lines 476-496: the file server. -/
def ftpdSteps (makeThreadFlag : String) (features : List String) : List Step :=
  if inArray features "5" then
    [ .clone "build/sys-ftpd" "https://github.com/jakibaki/sys-ftpd.git",
      .make "build/sys-ftpd" [makeThreadFlag],
      .copyFolder "build/sys-ftpd/sd_card/ftpd" "sd_root/ftpd",
      .copy "build/sys-ftpd/sys-ftpd.kip" "sd_root/cfw/sys-ftpd.kip" ]
  else []

/-- Lines 498-518: the title manager. -/
def tinfoilSteps (makeThreadFlag : String) (features : List String) : List Step :=
  if inArray features "6" then
    [ .clone "build/tinfoil" "https://github.com/Adubbz/Tinfoil.git",
      .make "build/tinfoil" [makeThreadFlag],
      .mkdirAll "sd_root/switch",
      .copy "build/tinfoil/tinfoil.nro" "sd_root/switch/Tinfoil.nro" ]
  else []

/-- The external actions of lines 293-527 in the order `main` performs them, in a
run where each of them succeeds.  `makeThreadFlag` is `"-j" + strconv.Itoa(runtime.NumCPU())`. -/
def pipelineSteps (makeThreadFlag : String) (features : List String) : List Step :=
  hekateSteps makeThreadFlag
  ++ atmosphereSteps makeThreadFlag
  ++ checkpointSteps makeThreadFlag features
  ++ homebrewSteps makeThreadFlag features
  ++ layeredfsSteps features
  ++ sigpatchSteps features
  ++ ftpdSteps makeThreadFlag features
  ++ tinfoilSteps makeThreadFlag features
  ++ [ .create "sd_root/bootloader/hekate_ipl.ini" ]

/-! ## Paths -/

/-- The components of a slash-separated path. -/
def pathComponents (path : String) : List String :=
  (splitChars '/' path.data).map String.mk

/-- A directory given by its components, together with all the directories above
it, outermost first: what `os.MkdirAll` leaves in existence when it succeeds. -/
def dirAncestors : List String → List (List String)
  | [] => []
  | d :: ds => [d] :: (dirAncestors ds).map (fun rest => d :: rest)

/-! ## A model of the operating system calls used by `copy` and `copyFolder` -/

/-- A Go `error` value: `none` is `nil`, `some msg` is an error with text `msg`. -/
abbrev GoError := Option String

/-- The part of the file system the deployment works on.  Paths are relative to
the working directory and written with slashes, as in the source. -/
structure FileSystem where
  /-- The directories that exist. -/
  dirs : List String
  /-- The regular files that exist, with their contents. -/
  files : List (String × String)
  /-- The paths that the process is not allowed to open, create or make. -/
  denied : List String
  deriving DecidableEq, Repr

/-- The path with its last component removed; the empty path is the working
directory. -/
def parentPath (path : String) : String :=
  "/".intercalate (pathComponents path).dropLast

/-- The directory exists (the working directory always does). -/
def FileSystem.isDir (fs : FileSystem) (path : String) : Bool :=
  path = "" || decide (path ∈ fs.dirs)

/-- A regular file exists at the path. -/
def FileSystem.isFile (fs : FileSystem) (path : String) : Bool :=
  fs.files.any (fun entry => entry.1 == path)

/-- The system call behind `os.Open(path)`: the error it returns. -/
def osOpen (fs : FileSystem) (path : String) : GoError :=
  if path ∈ fs.denied then some "permission denied"
  else if fs.isFile path || fs.isDir path then none
  else some "no such file or directory"

/-- The system call behind `os.Create(path)`: the file is created empty, or
truncated, in a directory that must exist. -/
def osCreate (fs : FileSystem) (path : String) : GoError × FileSystem :=
  if path ∈ fs.denied then (some "permission denied", fs)
  else if fs.isDir path then (some "is a directory", fs)
  else if !fs.isDir (parentPath path) then (some "no such file or directory", fs)
  else (none, { fs with files := (path, "") :: fs.files.filter (fun entry => entry.1 != path) })

/-- The library call `io.Copy(dest, source)` on the two open files: reading a
directory is an error, otherwise the contents are written to the destination. -/
def ioCopy (fs : FileSystem) (dst src : String) : GoError × FileSystem :=
  if fs.isDir src then (some "is a directory", fs)
  else
    (none, { fs with
      files := (dst, (fs.files.lookup src).getD "")
        :: fs.files.filter (fun entry => entry.1 != dst) })

/-- One level of `os.MkdirAll`: the directories in `todo` are made from the
outermost to the innermost; the first failure stops the walk. -/
def mkdirWalk : List String → FileSystem → GoError × FileSystem
  | [], fs => (none, fs)
  | dir :: todo, fs =>
    if fs.isFile dir then (some "not a directory", fs)
    else if fs.isDir dir then mkdirWalk todo fs
    else if dir ∈ fs.denied then (some "permission denied", fs)
    else mkdirWalk todo { fs with dirs := fs.dirs ++ [dir] }

/-- The paths of a directory and of all the directories above it, outermost
first. -/
def ancestorPaths (path : String) : List String :=
  (dirAncestors (pathComponents path)).map (fun comps => "/".intercalate comps)

/-- The library call `os.MkdirAll(path, 0700)`. -/
def osMkdirAll (fs : FileSystem) (path : String) : GoError × FileSystem :=
  mkdirWalk (ancestorPaths path) fs

/-- The library call `ioutil.ReadDir(path)`: the names of the entries of the
directory, sorted by name. -/
def ioutilReadDir (fs : FileSystem) (path : String) : Except String (List String) :=
  if path ∈ fs.denied then .error "permission denied"
  else if !fs.isDir path then .error "no such file or directory"
  else
    let entries := fs.files.map (fun entry => entry.1) ++ fs.dirs
    let children := entries.filter (fun entry => parentPath entry == path)
    .ok (sortStrings (children.map
      (fun entry => ((pathComponents entry).getLast?).getD "")))

/-! ## `copy` and `copyFolder` (launchpad.go 56-90) -/

/-- Lines 56-75: the error returned, and the file system afterwards. -/
def copy (fs : FileSystem) (src dst : String) : GoError × FileSystem :=
  match osOpen fs src with
  | some err => (some err, fs)
  | none =>
    match osCreate fs dst with
    | (some err, fs1) => (some err, fs1)
    | (none, fs1) =>
      match ioCopy fs1 dst src with
      | (some err, fs2) => (some err, fs2)
      | (none, fs2) => (none, fs2)

/-- Lines 77-90: the error of `ioutil.ReadDir` is returned; the error of
`os.MkdirAll` is stored in `err` and never read; the value returned by each
`copy` is dropped; the function ends in `return nil`. -/
def copyFolder (fs : FileSystem) (src dst : String) : GoError × FileSystem :=
  match ioutilReadDir fs src with
  | .error err => (some err, fs)
  | .ok files =>
    let made := osMkdirAll fs dst
    let fs2 := files.foldl
      (fun (cur : FileSystem) (name : String) =>
        (copy cur (src ++ "/" ++ name) (dst ++ "/" ++ name)).2)
      made.2
    (none, fs2)

/-- A run of `main` at some point: still going with this file system, or ended in
the `panic` of `errCheck` while doing `task`. -/
inductive RunState where
  /-- The run goes on. -/
  | running (fs : FileSystem)
  /-- The call `errCheck(w, task, err)` found a non-nil error. -/
  | aborted (task : String) (err : String)
  deriving DecidableEq, Repr

/-- Lines 40-45 after a call that returned `(err, fs)`: a non-nil error ends the
run. -/
def errCheck (task : String) (result : GoError × FileSystem) : RunState :=
  match result.1 with
  | some err => .aborted task err
  | none => .running result.2

/-- Lines 469-473, the body of `if inArray(features, "4")`. -/
def sigpatchDeploy (fs : FileSystem) : RunState :=
  match errCheck "creating sd_root/atmosphere/exefs_patches"
      (osMkdirAll fs "sd_root/atmosphere/exefs_patches") with
  | .aborted task err => .aborted task err
  | .running fs1 =>
    errCheck "copying fake_tickets (sigpatches)"
      (copyFolder fs1 "fake_tickets" "sd_root/atmosphere/exefs_patches/fake_tickets")

/-- Lines 492-495, the copies in the body of `if inArray(features, "5")`. -/
def ftpdDeploy (fs : FileSystem) : RunState :=
  match errCheck "copying sys-ftpd's sound files"
      (copyFolder fs "build/sys-ftpd/sd_card/ftpd" "sd_root/ftpd") with
  | .aborted task err => .aborted task err
  | .running fs1 =>
    errCheck "copying sys-ftpd"
      (copy fs1 "build/sys-ftpd/sys-ftpd.kip" "sd_root/cfw/sys-ftpd.kip")

/-- A file system after a successful build with feature 4 selected, where the
patch file `fake_tickets/a.ips` exists but may not be read. -/
def fsUnreadablePatch : FileSystem :=
  { dirs := ["fake_tickets", "sd_root", "sd_root/atmosphere", "sd_root/cfw"],
    files := [("fake_tickets/a.ips", "PATCH")],
    denied := ["fake_tickets/a.ips"] }

/-- A file system after a successful build with feature 4 selected, where the
directory `sd_root/atmosphere/exefs_patches/fake_tickets` may not be made. -/
def fsNoPatchDir : FileSystem :=
  { dirs := ["fake_tickets", "sd_root", "sd_root/atmosphere", "sd_root/cfw"],
    files := [("fake_tickets/a.ips", "PATCH")],
    denied := ["sd_root/atmosphere/exefs_patches/fake_tickets"] }

/-- A file system after a successful build with feature 5 selected, where the
build left the sound files but no `sys-ftpd.kip`. -/
def fsMissingKip : FileSystem :=
  { dirs := ["build", "build/sys-ftpd", "build/sys-ftpd/sd_card", "build/sys-ftpd/sd_card/ftpd",
             "sd_root", "sd_root/cfw"],
    files := [("build/sys-ftpd/sd_card/ftpd/connect.mp3", "MP3")],
    denied := [] }

/-! ## Specification-side definitions for the boot configuration -/

/-- The six valid feature codes. -/
def validCodes : List String := ["1", "2", "3", "4", "5", "6"]

/-- The fixed leading lines, as the specification words them: chosen by the No-GC
flag alone. -/
def specPreamble (nogc : Bool) : List String :=
  if nogc then ["[Stock]", "", "[Stock (nogc)]", "kip1patch=nogc", "", "[CFW]"]
  else ["[Stock]", "", "[CFW]"]

/-- The custom-firmware key set, as the specification words it: two fixed keys,
plus a `kip1patch` key chosen by No-GC and feature 4, plus `atmosphere=1` for
feature 3. -/
def specKeys (nogc : Bool) (features : List String) : List String :=
  ["kip1=cfw/*", "secmon=cfw/exosphere.bin"]
  ++ (if nogc ∧ "4" ∈ features then ["kip1patch=nogc,nosigchk"]
      else if nogc then ["kip1patch=nogc"]
      else if "4" ∈ features then ["kip1patch=nosigchk"]
      else [])
  ++ (if "3" ∈ features then ["atmosphere=1"] else [])

/-- Lines joined by single line feeds, as the specification words it: nothing after
the last line, one separator between two consecutive lines. -/
def joinLines : List String → String
  | [] => ""
  | [v] => v
  | v :: w :: rest => v ++ "\n" ++ joinLines (w :: rest)

/-- The first token of a line, as the specification words it: the text in front of
the first space. -/
def specFirstToken (resp : String) : String :=
  String.mk (resp.data.takeWhile (fun c => c != ' '))

/-- One pass of the feature prompt, as the specification words it. -/
def specFeaturePrompt (resp : String) : PromptResult :=
  if specFirstToken resp = "all" then .selected validCodes
  else if specFirstToken resp = "exit" then .exited 0
  else
    match atoi (specFirstToken resp) with
    | some i => if 1 ≤ i ∧ i ≤ 6 then .selected (split resp) else .again
    | none => .again

/-- The optional packages, as the specification words them: each at most once, in
the order freetype, libconfig, mpg123, curl. -/
def specOptionalPackages (features : List String) : List String :=
  (if "1" ∈ features ∨ "2" ∈ features then ["switch-freetype"] else [])
  ++ (if "2" ∈ features then ["switch-libconfig"] else [])
  ++ (if "5" ∈ features then ["switch-mpg123"] else [])
  ++ (if "6" ∈ features then ["switch-curl"] else [])

/-- The argument list after the name of the package manager, as the specification
words it. -/
def specInstallArgs (features : List String) : List String :=
  ["-S", "--noconfirm", "--needed", "switch-dev", "devkitARM"] ++ specOptionalPackages features

/-- The name of the package manager on Linux. -/
def pacmanBinary (pacmanFound : Bool) : String :=
  if pacmanFound then "pacman" else "dkp-pacman"

/-! ## Observations on a sequence of pipeline steps -/

/-- True on a clone into the directory `dir`. -/
def Step.isCloneInto (dir : String) : Step → Bool
  | .clone d _ => d == dir
  | _ => false

/-- True on a build run in the directory `dir`. -/
def Step.isBuildIn (dir : String) : Step → Bool
  | .make d _ => d == dir
  | _ => false

/-- True on a file copy whose destination is `dst`. -/
def Step.isCopyTo (dst : String) : Step → Bool
  | .copy _ d => d == dst
  | _ => false

/-- The directories a step creates: `os.MkdirAll(path)` in `main`, and the
`os.MkdirAll(dst)` that `copyFolder` runs before it copies the children into
`dst`. -/
def stepCreates : Step → List (List String)
  | .mkdirAll path => dirAncestors (pathComponents path)
  | .copyFolder _ dst => dirAncestors (pathComponents dst)
  | _ => []

/-- The files a step writes.  A `copy` and an `os.Create` write the path the
source names; `copyFolder(src, dst)` writes `dst + "/" + name` for every `name`
that `ioutil.ReadDir(src)` returns (lines 85-87), and `listing src` is that list
of names. -/
def stepWrites (listing : String → List String) : Step → List String
  | .copy _ dst => [dst]
  | .create path => [path]
  | .copyFolder src dst => (listing src).map (fun name => dst ++ "/" ++ name)
  | _ => []

/-- The path lies below `sd_root`. -/
def underSdRoot (path : String) : Bool :=
  match pathComponents path with
  | first :: _ :: _ => first == "sd_root"
  | _ => false

/-- The directory that holds `file` is among `dirs`. -/
def parentCreated (dirs : List (List String)) (file : String) : Bool :=
  decide ((pathComponents file).dropLast ∈ dirs)

/-- Every file that the step writes below `sd_root` goes into a directory that is
in `dirs` or that the step itself makes before it writes (`copyFolder` runs its
`os.MkdirAll` at line 83, ahead of the copies of lines 85-87; the other steps
that write make no directory). -/
def stepReady (listing : String → List String) (dirs : List (List String)) (st : Step) : Bool :=
  (stepWrites listing st).all
    (fun file => !underSdRoot file || parentCreated (dirs ++ stepCreates st) file)

/-- Every file that the steps write below `sd_root` goes into a directory that is
in `dirs` or that was made earlier in the list. -/
def parentsReady (listing : String → List String) : List (List String) → List Step → Bool
  | _, [] => true
  | dirs, st :: rest =>
    stepReady listing dirs st && parentsReady listing (dirs ++ stepCreates st) rest

/-- A sample of what `ioutil.ReadDir` returns: two file names for `fake_tickets`,
one for the sound files of the file server. -/
def sampleListing (src : String) : List String :=
  if src = "fake_tickets" then ["a.ips", "b.ips"]
  else if src = "build/sys-ftpd/sd_card/ftpd" then ["connect.mp3"]
  else []

/-- The six observations that make up the two homebrew cycles. -/
def homebrewObservations : List (Step → Bool) :=
  [Step.isCloneInto "build/hbloader", Step.isBuildIn "build/hbloader",
   Step.isCopyTo "sd_root/atmosphere/hbl.nsp",
   Step.isCloneInto "build/hbmenu", Step.isBuildIn "build/hbmenu",
   Step.isCopyTo "sd_root/hbmenu.nro"]

/-- The directories below `sd_root` that exist when line 354 is reached, whatever
the selection: those made for the payload loader and the firmware core. -/
def baseDirs : List (List String) :=
  [["sd_root"], ["sd_root", "bootloader"], ["sd_root", "bootloader", "sys"],
   ["sd_root"], ["sd_root", "atmosphere"], ["sd_root", "atmosphere", "titles"],
   ["sd_root", "atmosphere", "titles", "0100000000000036"],
   ["sd_root", "atmosphere", "titles", "0100000000000036", "exefs"],
   ["sd_root"], ["sd_root", "cfw"]]

/-- Ascending order of Go strings: `a` comes before `b` when `b < a` is false. -/
def goLessEq (a b : String) : Prop := goLess b a = false

/-! ## Lemmas on the string order and on sorting -/

theorem bytesLess_asymm : ∀ a b : List Nat, bytesLess a b = true → bytesLess b a = false
  | [], [] => by simp [bytesLess]
  | [], _ :: _ => by simp [bytesLess]
  | _ :: _, [] => by simp [bytesLess]
  | x :: xs, y :: ys => by
    intro h
    simp only [bytesLess] at h ⊢
    by_cases h1 : x < y
    · have h2 : ¬ y < x := by omega
      simp [h2, h1]
    · by_cases h2 : y < x
      · simp [h1, h2] at h
      · simp only [h1, h2, if_false] at h ⊢
        exact bytesLess_asymm xs ys h

theorem bytesLess_trans : ∀ a b c : List Nat,
    bytesLess a b = true → bytesLess b c = true → bytesLess a c = true
  | [], [], _ => by simp [bytesLess]
  | [], _ :: _, [] => by simp [bytesLess]
  | [], _ :: _, _ :: _ => by simp [bytesLess]
  | _ :: _, [], _ => by simp [bytesLess]
  | _ :: _, _ :: _, [] => by simp [bytesLess]
  | x :: xs, y :: ys, z :: zs => by
    intro h1 h2
    simp only [bytesLess] at h1 h2 ⊢
    by_cases hxy : x < y
    · by_cases hyz : y < z
      · have : x < z := by omega
        simp [this]
      · by_cases hzy : z < y
        · simp [hyz, hzy] at h2
        · have : x < z := by omega
          simp [this]
    · by_cases hyx : y < x
      · simp [hxy, hyx] at h1
      · simp only [hxy, hyx, if_false] at h1
        have hEq : x = y := by omega
        subst hEq
        by_cases hxz : x < z
        · simp [hxz]
        · by_cases hzx : z < x
          · simp [hxz, hzx] at h2
          · simp only [hxz, hzx, if_false] at h2 ⊢
            exact bytesLess_trans xs ys zs h1 h2

theorem goLess_asymm (a b : String) (h : goLess a b = true) : goLess b a = false :=
  bytesLess_asymm _ _ h

theorem goLess_trans (a b c : String) (h1 : goLess a b = true) (h2 : goLess b c = true) :
    goLess a c = true :=
  bytesLess_trans _ _ _ h1 h2

theorem insertSorted_perm (x : String) : ∀ l : List String, (insertSorted x l).Perm (x :: l)
  | [] => by simp [insertSorted]
  | y :: ys => by
    simp only [insertSorted]
    split
    · exact List.Perm.refl _
    · exact ((insertSorted_perm x ys).cons y).trans (List.Perm.swap x y ys)

theorem insertSorted_sorted (x : String) : ∀ l : List String,
    l.Pairwise goLessEq → (insertSorted x l).Pairwise goLessEq
  | [] => by simp [insertSorted]
  | y :: ys => by
    intro h
    have hy : ∀ z ∈ ys, goLessEq y z := (List.pairwise_cons.mp h).1
    have hys : ys.Pairwise goLessEq := (List.pairwise_cons.mp h).2
    simp only [insertSorted]
    by_cases hxy : goLess x y = true
    · simp only [hxy, if_true]
      refine List.pairwise_cons.mpr ⟨?_, h⟩
      intro z hz
      rcases List.mem_cons.mp hz with rfl | hz
      · exact goLess_asymm _ _ hxy
      · have hyz : goLess z y = false := hy z hz
        show goLess z x = false
        by_contra hzx
        have hzx : goLess z x = true := by simpa using hzx
        have := goLess_trans z x y hzx hxy
        simp [hyz] at this
    · simp only [hxy]
      refine List.pairwise_cons.mpr ⟨?_, insertSorted_sorted x ys hys⟩
      intro z hz
      have hz : z ∈ x :: ys := (insertSorted_perm x ys).mem_iff.mp hz
      rcases List.mem_cons.mp hz with rfl | hz
      · show goLess z y = false
        simpa using hxy
      · exact hy z hz

theorem foldl_insertSorted_perm : ∀ (l acc : List String),
    (l.foldl (fun acc x => insertSorted x acc) acc).Perm (acc ++ l)
  | [], acc => by simp
  | x :: xs, acc => by
    simp only [List.foldl_cons]
    refine (foldl_insertSorted_perm xs (insertSorted x acc)).trans ?_
    refine ((insertSorted_perm x acc).append_right xs).trans ?_
    simpa using (@List.perm_middle String x acc xs).symm

theorem foldl_insertSorted_sorted : ∀ (l acc : List String),
    acc.Pairwise goLessEq → (l.foldl (fun acc x => insertSorted x acc) acc).Pairwise goLessEq
  | [], _ => by simp
  | x :: xs, acc => by
    intro h
    simp only [List.foldl_cons]
    exact foldl_insertSorted_sorted xs _ (insertSorted_sorted x acc h)

/-- The sort model returns a permutation of its input. -/
theorem sortStrings_perm (l : List String) : (sortStrings l).Perm l := by
  simpa [sortStrings] using foldl_insertSorted_perm l []

/-- The sort model returns an ascending list. -/
theorem sortStrings_sorted (l : List String) : (sortStrings l).Pairwise goLessEq :=
  foldl_insertSorted_sorted l [] List.Pairwise.nil

theorem inArray_eq_decide (array : List String) (item : String) :
    inArray array item = decide (item ∈ array) := by
  induction array with
  | nil => simp [inArray]
  | cons v rest ih =>
    simp only [inArray, ih, List.mem_cons]
    by_cases h : v = item
    · simp [h]
    · have h2 : ¬ item = v := fun e => h e.symm
      simp [h, h2]

theorem foldl_append_singleton (l init : List String) :
    l.foldl (fun acc v => acc ++ [v]) init = init ++ l := by
  induction l generalizing init with
  | nil => simp
  | cons x xs ih => simp [ih]

theorem hekateConfig_eq (nogc : Bool) (features : List String) :
    hekateConfig nogc features = (initialConfig nogc features).1 ++ cfwEntries nogc features := by
  simp [hekateConfig, foldl_append_singleton]

/-! ## Claims on the boot configuration -/

/-- C1: the line list built by `main` is the preamble chosen by the No-GC flag
followed by the ascending (byte-wise) sort of the key set: the result of the sort is
ascending and a permutation of the specified keys; and with No-GC true the list is
the six preamble lines followed by `kip1=cfw/*`, the `kip1patch` key
(`kip1patch=nogc,nosigchk` when "4" is selected) and `secmon=cfw/exosphere.bin`,
with `atmosphere=1` in front of them when "3" is selected; the list for No-GC
false is given in the same way. -/
theorem C1_hekateConfig_is_preamble_then_sorted_keys (nogc : Bool) (features : List String) :
    hekateConfig nogc features = specPreamble nogc ++ sortStrings (specKeys nogc features)
    ∧ (sortStrings (specKeys nogc features)).Pairwise goLessEq
    ∧ (sortStrings (specKeys nogc features)).Perm (specKeys nogc features)
    ∧ hekateConfig true features =
        ["[Stock]", "", "[Stock (nogc)]", "kip1patch=nogc", "", "[CFW]"]
        ++ (if "3" ∈ features then ["atmosphere=1"] else [])
        ++ ["kip1=cfw/*",
            (if "4" ∈ features then "kip1patch=nogc,nosigchk" else "kip1patch=nogc"),
            "secmon=cfw/exosphere.bin"]
    ∧ hekateConfig false features =
        ["[Stock]", "", "[CFW]"]
        ++ (if "3" ∈ features then ["atmosphere=1"] else [])
        ++ ["kip1=cfw/*"]
        ++ (if "4" ∈ features then ["kip1patch=nosigchk"] else [])
        ++ ["secmon=cfw/exosphere.bin"] := by
  refine ⟨?_, sortStrings_sorted _, sortStrings_perm _, ?_, ?_⟩
  · rw [hekateConfig_eq]
    simp only [cfwEntries, cfwKeys, initialConfig, specPreamble, specKeys, inArray_eq_decide]
    cases nogc <;> by_cases h4 : "4" ∈ features <;> by_cases h3 : "3" ∈ features <;>
      simp [h4, h3] <;> decide
  · rw [hekateConfig_eq]
    simp only [cfwEntries, cfwKeys, initialConfig, inArray_eq_decide]
    by_cases h4 : "4" ∈ features <;> by_cases h3 : "3" ∈ features <;>
      simp [h4, h3] <;> decide
  · rw [hekateConfig_eq]
    simp only [cfwEntries, cfwKeys, initialConfig, inArray_eq_decide]
    by_cases h4 : "4" ∈ features <;> by_cases h3 : "3" ∈ features <;>
      simp [h4, h3] <;> decide

/-- C2 as stated fails: with No-GC false and the selection `["3"]`, which does not
contain "4", the entries after `[CFW]` are three lines, not two. -/
theorem C2_counterexample_feature3 :
    ¬ (∀ features : List String, "4" ∉ features →
        hekateConfig false features =
          ["[Stock]", "", "[CFW]", "kip1=cfw/*", "secmon=cfw/exosphere.bin"]) := by
  intro h
  have h3 := h ["3"] (by decide)
  revert h3
  decide

/-- C2 amended: for every token list without "4", with No-GC false, the lines
after `[CFW]` are `kip1=cfw/*` and `secmon=cfw/exosphere.bin` in that order,
preceded by `atmosphere=1` exactly when "3" is selected, and nothing else. -/
theorem C2_entries_without_feature4 (features : List String) (h4 : "4" ∉ features) :
    cfwEntries false features =
        (if "3" ∈ features then ["atmosphere=1"] else [])
        ++ ["kip1=cfw/*", "secmon=cfw/exosphere.bin"]
    ∧ hekateConfig false features =
        ["[Stock]", "", "[CFW]"] ++ cfwEntries false features := by
  constructor
  · simp only [cfwEntries, cfwKeys, initialConfig, inArray_eq_decide]
    by_cases h3 : "3" ∈ features <;> simp [h4, h3] <;> decide
  · rw [hekateConfig_eq]
    simp [initialConfig, inArray_eq_decide, h4]

/-- The amended C2 at the selection `["1", "3"]`. -/
theorem C2_entries_without_feature4_witness :
    "4" ∉ ["1", "3"]
    ∧ (cfwEntries false ["1", "3"] =
        (if "3" ∈ ["1", "3"] then ["atmosphere=1"] else [])
        ++ ["kip1=cfw/*", "secmon=cfw/exosphere.bin"]
      ∧ hekateConfig false ["1", "3"] =
        ["[Stock]", "", "[CFW]"] ++ cfwEntries false ["1", "3"]) :=
  ⟨by decide, C2_entries_without_feature4 ["1", "3"] (by decide)⟩

theorem writeLines_eq (len : Nat) : ∀ (rest : List String) (i : Nat) (file : String),
    i + rest.length = len → writeLines len i rest file = file ++ joinLines rest
  | [], _, file, _ => by simp [writeLines, joinLines]
  | [v], i, file, h => by
    have hi : i + 1 = len := by simpa using h
    simp [writeLines, joinLines, hi]
  | v :: w :: rest, i, file, h => by
    have hi : ¬ i + 1 = len := by
      simp only [List.length_cons] at h
      omega
    have hrec := writeLines_eq len (w :: rest) (i + 1) (file ++ (v ++ "\n"))
      (by simp only [List.length_cons] at h ⊢; omega)
    simp only [writeLines, hi, if_false] at hrec ⊢
    rw [hrec]
    simp [joinLines, String.append_assoc]

theorem intercalate_go_eq : ∀ (l : List String) (acc : String),
    String.intercalate.go acc "\n" l = acc ++ joinLines ("" :: l)
  | [], acc => by simp [String.intercalate.go, joinLines]
  | a :: as, acc => by
    rw [String.intercalate.go, intercalate_go_eq as]
    cases as with
    | nil => simp [joinLines, String.append_assoc]
    | cons b bs => simp [joinLines, String.append_assoc]

theorem joinLines_eq_intercalate : ∀ l : List String, joinLines l = String.intercalate "\n" l
  | [] => by simp [joinLines, String.intercalate]
  | [v] => by simp [joinLines, String.intercalate, String.intercalate.go]
  | v :: w :: rest => by
    rw [String.intercalate, intercalate_go_eq]
    simp [joinLines, String.append_assoc]

theorem hekateConfig_ne_nil (nogc : Bool) (features : List String) :
    hekateConfig nogc features ≠ [] := by
  rw [hekateConfig_eq]
  simp only [initialConfig]
  cases nogc <;> cases inArray features "4" <;> simp

/-- C3: the text written to `hekate_ipl.ini` by the write loop is the line list
joined by single line feeds (no separator after the last line, one between two
consecutive lines), for every line list and so for every generated one, which is
never empty. -/
theorem C3_written_text_is_lines_joined (lines : List String) (nogc : Bool)
    (features : List String) :
    hekateIplIni lines = joinLines lines
    ∧ hekateIplIni lines = String.intercalate "\n" lines
    ∧ hekateConfig nogc features ≠ []
    ∧ hekateIplIni (hekateConfig nogc features) =
        String.intercalate "\n" (hekateConfig nogc features) := by
  have key : ∀ l : List String, hekateIplIni l = joinLines l := by
    intro l
    have := writeLines_eq l.length l 0 "" (by simp)
    simpa [hekateIplIni] using this
  refine ⟨key lines, ?_, hekateConfig_ne_nil nogc features, ?_⟩
  · rw [key, joinLines_eq_intercalate]
  · rw [key, joinLines_eq_intercalate]

theorem inArray_congr (f1 f2 : List String) (h : ∀ t, t ∈ f1 ↔ t ∈ f2) (item : String) :
    inArray f1 item = inArray f2 item := by
  simp [inArray_eq_decide, h item]

/-- C4: two token lists that are permutations of one another, or that contain the
same set of tokens, give the same boot-configuration line list, for every No-GC
value. -/
theorem C4_config_independent_of_token_order (nogc : Bool) (f1 f2 : List String)
    (h : f1.Perm f2 ∨ ∀ t, t ∈ f1 ↔ t ∈ f2) :
    hekateConfig nogc f1 = hekateConfig nogc f2 := by
  have hset : ∀ t, t ∈ f1 ↔ t ∈ f2 := by
    rcases h with hp | hs
    · exact fun t => hp.mem_iff
    · exact hs
  simp only [hekateConfig, cfwEntries, cfwKeys, initialConfig, inArray_congr f1 f2 hset]

/-- C4 at the selections `["3", "4", "1"]` and `["1", "3", "4"]`. -/
theorem C4_config_independent_of_token_order_witness :
    (["3", "4", "1"].Perm ["1", "3", "4"] ∨ ∀ t, t ∈ ["3", "4", "1"] ↔ t ∈ ["1", "3", "4"])
    ∧ hekateConfig true ["3", "4", "1"] = hekateConfig true ["1", "3", "4"] :=
  ⟨Or.inl (by decide),
   C4_config_independent_of_token_order true ["3", "4", "1"] ["1", "3", "4"] (Or.inl (by decide))⟩

theorem splitChars_ne_nil (sep : Char) : ∀ cs : List Char, splitChars sep cs ≠ []
  | [] => by simp [splitChars]
  | c :: cs => by
    simp only [splitChars]
    split
    · simp
    · split <;> simp

theorem splitChars_head (sep : Char) : ∀ cs : List Char,
    (splitChars sep cs).headD [] = cs.takeWhile (fun c => c != sep)
  | [] => by simp [splitChars]
  | c :: cs => by
    simp only [splitChars]
    by_cases hc : c = sep
    · simp [hc]
    · have ih := splitChars_head sep cs
      simp only [hc, if_false]
      cases hs : splitChars sep cs with
      | nil => exact absurd hs (splitChars_ne_nil sep cs)
      | cons tok toks =>
        rw [hs] at ih
        simp only [List.headD_cons] at ih
        simp [List.takeWhile_cons, hc, ih]

theorem split_head (resp : String) : (split resp).headD "" = specFirstToken resp := by
  have h := splitChars_head ' ' resp.data
  simp only [split, specFirstToken]
  cases hs : splitChars ' ' resp.data with
  | nil => exact absurd hs (splitChars_ne_nil _ _)
  | cons tok toks =>
    rw [hs] at h
    simp only [List.headD_cons] at h
    simp [h]

theorem split_ne_nil (resp : String) : split resp ≠ [] := by
  simp [split, splitChars_ne_nil]

theorem goodFlag_eq (first : String) :
    goodFlag first = true ↔ ∃ i, atoi first = some i ∧ 1 ≤ i ∧ i ≤ 6 := by
  simp only [goodFlag, List.foldl_cons, List.foldl_nil]
  cases h : atoi first with
  | none => simp
  | some i =>
    simp only [Option.some.injEq, exists_eq_left']
    constructor
    · intro hg
      by_contra hc
      have h1 : ¬ i = 1 := by omega
      have h2 : ¬ i = 2 := by omega
      have h3 : ¬ i = 3 := by omega
      have h4 : ¬ i = 4 := by omega
      have h5 : ¬ i = 5 := by omega
      have h6 : ¬ i = 6 := by omega
      simp [h1, h2, h3, h4, h5, h6] at hg
    · intro hr
      have : i = 1 ∨ i = 2 ∨ i = 3 ∨ i = 4 ∨ i = 5 ∨ i = 6 := by omega
      rcases this with rfl | rfl | rfl | rfl | rfl | rfl <;> simp

theorem atoi_empty : atoi "" = none := by decide

/-- C5: one pass of the feature prompt decides as the specification says: first
token `all` selects the six codes whatever follows, first token `exit` ends the
process with status 0, a first token that parses as an integer in 1..6 selects
the full split token list, and every other line (empty, non-numeric or
out-of-range first token) prompts again. -/
theorem C5_featurePrompt_decides_on_first_token (resp : String) :
    featurePrompt resp = specFeaturePrompt resp := by
  simp only [featurePrompt, specFeaturePrompt, split_head, validCodes]
  by_cases hall : specFirstToken resp = "all"
  · simp [hall]
  · by_cases hexit : specFirstToken resp = "exit"
    · simp [hexit]
    · simp only [hall, hexit, if_false]
      by_cases hempty : specFirstToken resp = ""
      · simp [hempty, atoi_empty]
      · simp only [hempty, if_false]
        by_cases hg : goodFlag (specFirstToken resp) = true
        · obtain ⟨i, hi, h1, h6⟩ := (goodFlag_eq _).mp hg
          simp [hg, hi, h1, h6]
        · have hn : ¬ ∃ i, atoi (specFirstToken resp) = some i ∧ 1 ≤ i ∧ i ≤ 6 :=
            fun he => hg ((goodFlag_eq _).mpr he)
          simp only [hg]
          cases hi : atoi (specFirstToken resp) with
          | none => simp
          | some i =>
            have : ¬ (1 ≤ i ∧ i ≤ 6) := fun hr => hn ⟨i, hi, hr.1, hr.2⟩
            simp [this]

/-- C6 as stated fails: on the single input line `1 no-hbloader` the loop ends
with the selection `["1", "no-hbloader"]`, whose second element is none of the six
codes. -/
theorem C6_counterexample_unvalidated_token :
    ¬ (∀ (lines sel : List String), featureLoop lines = .selected sel →
        sel ≠ [] ∧ ∀ x ∈ sel, x ∈ validCodes) := by
  intro h
  have h1 := (h ["1 no-hbloader"] ["1", "no-hbloader"] (by decide)).2 "no-hbloader" (by decide)
  revert h1
  decide

/-- C6 amended: when the loop ends with a selection, the selection is non-empty, and
it is either the six valid codes or the split of one of the input lines whose first
token parses as an integer in 1..6 (the tokens after the first are not checked). -/
theorem C6_selection_nonempty_first_token_valid (lines sel : List String)
    (h : featureLoop lines = .selected sel) :
    sel ≠ []
    ∧ (sel = validCodes
       ∨ ∃ resp ∈ lines, sel = split resp
           ∧ ∃ i, atoi (sel.headD "") = some i ∧ 1 ≤ i ∧ i ≤ 6) := by
  induction lines with
  | nil => simp [featureLoop] at h
  | cons resp rest ih =>
    simp only [featureLoop] at h
    cases hp : featurePrompt resp with
    | exited status => simp [hp] at h
    | again =>
      simp only [hp] at h
      obtain ⟨hne, hsel⟩ := ih h
      refine ⟨hne, ?_⟩
      rcases hsel with hall | ⟨r, hr, hs, hi⟩
      · exact Or.inl hall
      · exact Or.inr ⟨r, List.mem_cons_of_mem _ hr, hs, hi⟩
    | selected fs =>
      simp only [hp, LoopResult.selected.injEq] at h
      subst h
      simp only [featurePrompt] at hp
      split at hp
      · simp only [PromptResult.selected.injEq] at hp
        subst hp
        exact ⟨by simp, Or.inl rfl⟩
      · split at hp
        · simp at hp
        · split at hp
          · simp at hp
          · split at hp
            · rename_i hg
              simp only [PromptResult.selected.injEq] at hp
              subst hp
              exact ⟨split_ne_nil resp,
                Or.inr ⟨resp, List.mem_cons_self _ _, rfl, (goodFlag_eq _).mp hg⟩⟩
            · simp at hp

/-- The amended C6 on the input lines ``, `7`, `2 5 x`. -/
theorem C6_selection_nonempty_first_token_valid_witness :
    featureLoop ["", "7", "2 5 x"] = .selected ["2", "5", "x"]
    ∧ (["2", "5", "x"] ≠ []
       ∧ (["2", "5", "x"] = validCodes
          ∨ ∃ resp ∈ ["", "7", "2 5 x"], ["2", "5", "x"] = split resp
              ∧ ∃ i, atoi (["2", "5", "x"].headD "") = some i ∧ 1 ≤ i ∧ i ≤ 6)) :=
  ⟨by decide, C6_selection_nonempty_first_token_valid ["", "7", "2 5 x"] ["2", "5", "x"] (by decide)⟩

/-- C7 as stated fails: with "1" and "2" both selected the argument list holds
`switch-freetype` twice. -/
theorem C7_counterexample_freetype_twice :
    ¬ (∀ features : List String,
        installCommand "windows" true features = some ("pacman", specInstallArgs features)) := by
  intro h
  have h12 := h ["1", "2"]
  revert h12
  decide

/-- C7 amended: the argument list after the name of the package manager is
`-S --noconfirm --needed switch-dev devkitARM`, then one more `switch-freetype` when
"1" and "2" are both selected, then the optional packages of the specification
(freetype iff "1" or "2", libconfig iff "2", mpg123 iff "5", curl iff "6", in that
order); on Windows it is passed to `pacman`, on Linux it follows the name of the
resolved binary and is passed to `sudo`. -/
theorem C7_install_arguments (pacmanFound : Bool) (features : List String) :
    installCommand "windows" pacmanFound features =
        some ("pacman",
          ["-S", "--noconfirm", "--needed", "switch-dev", "devkitARM"]
          ++ (if "1" ∈ features ∧ "2" ∈ features then ["switch-freetype"] else [])
          ++ specOptionalPackages features)
    ∧ installCommand "linux" pacmanFound features =
        some ("sudo",
          pacmanBinary pacmanFound
          :: (["-S", "--noconfirm", "--needed", "switch-dev", "devkitARM"]
          ++ (if "1" ∈ features ∧ "2" ∈ features then ["switch-freetype"] else [])
          ++ specOptionalPackages features)) := by
  have hw : ("linux" : String) ≠ "windows" := by decide
  simp only [installCommand, installArgs, specOptionalPackages, pacmanBinary,
    inArray_eq_decide, hw, if_true, if_false]
  constructor
  · by_cases h1 : "1" ∈ features <;> by_cases h2 : "2" ∈ features <;>
      by_cases h5 : "5" ∈ features <;> by_cases h6 : "6" ∈ features <;>
      simp [h1, h2, h5, h6]
  · cases pacmanFound <;>
      by_cases h1 : "1" ∈ features <;> by_cases h2 : "2" ∈ features <;>
      by_cases h5 : "5" ∈ features <;> by_cases h6 : "6" ∈ features <;>
      simp [h1, h2, h5, h6]

/-! ## Claims on the pipeline -/

theorem pipeline_countP (p : Step → Bool) (flag : String) (features : List String) :
    (pipelineSteps flag features).countP p =
      (hekateSteps flag).countP p + (atmosphereSteps flag).countP p
      + (checkpointSteps flag features).countP p + (homebrewSteps flag features).countP p
      + (layeredfsSteps features).countP p + (sigpatchSteps features).countP p
      + (ftpdSteps flag features).countP p + (tinfoilSteps flag features).countP p
      + [Step.create "sd_root/bootloader/hekate_ipl.ini"].countP p := by
  simp only [pipelineSteps, List.countP_append]

theorem other_blocks_countP (p : Step → Bool) (hp : p ∈ homebrewObservations) (flag : String)
    (features : List String) :
    (hekateSteps flag).countP p = 0 ∧ (atmosphereSteps flag).countP p = 0
    ∧ (checkpointSteps flag features).countP p = 0 ∧ (layeredfsSteps features).countP p = 0
    ∧ (sigpatchSteps features).countP p = 0 ∧ (ftpdSteps flag features).countP p = 0
    ∧ (tinfoilSteps flag features).countP p = 0
    ∧ [Step.create "sd_root/bootloader/hekate_ipl.ini"].countP p = 0 := by
  simp only [homebrewObservations, List.mem_cons, List.mem_singleton, List.not_mem_nil,
    or_false] at hp
  simp only [hekateSteps, atmosphereSteps, checkpointSteps, layeredfsSteps, sigpatchSteps,
    ftpdSteps, tinfoilSteps]
  rcases hp with rfl | rfl | rfl | rfl | rfl | rfl <;>
    refine ⟨?_, ?_, ?_, ?_, ?_, ?_, ?_, ?_⟩ <;>
    first
      | (split <;> simp [Step.isCloneInto, Step.isBuildIn, Step.isCopyTo, List.countP_cons])
      | simp [Step.isCloneInto, Step.isBuildIn, Step.isCopyTo, List.countP_cons]

theorem homebrew_countP (flag : String) (features : List String) :
    (homebrewSteps flag features).countP (Step.isCloneInto "build/hbloader")
        = (if ("1" ∈ features ∨ "2" ∈ features ∨ "6" ∈ features) ∧ "no-hbloader" ∉ features
            then 1 else 0)
    ∧ (homebrewSteps flag features).countP (Step.isBuildIn "build/hbloader")
        = (if ("1" ∈ features ∨ "2" ∈ features ∨ "6" ∈ features) ∧ "no-hbloader" ∉ features
            then 1 else 0)
    ∧ (homebrewSteps flag features).countP (Step.isCopyTo "sd_root/atmosphere/hbl.nsp")
        = (if ("1" ∈ features ∨ "2" ∈ features ∨ "6" ∈ features) ∧ "no-hbloader" ∉ features
            then 1 else 0)
    ∧ (homebrewSteps flag features).countP (Step.isCloneInto "build/hbmenu")
        = (if "1" ∈ features ∨ "2" ∈ features ∨ "6" ∈ features then 1 else 0)
    ∧ (homebrewSteps flag features).countP (Step.isBuildIn "build/hbmenu")
        = (if "1" ∈ features ∨ "2" ∈ features ∨ "6" ∈ features then 1 else 0)
    ∧ (homebrewSteps flag features).countP (Step.isCopyTo "sd_root/hbmenu.nro")
        = (if "1" ∈ features ∨ "2" ∈ features ∨ "6" ∈ features then 1 else 0) := by
  simp only [homebrewSteps, hbloaderCycle, hbmenuCycle, inArray_eq_decide]
  by_cases h1 : "1" ∈ features <;> by_cases h2 : "2" ∈ features <;>
    by_cases h6 : "6" ∈ features <;> by_cases hn : "no-hbloader" ∈ features <;>
    simp [h1, h2, h6, hn, Step.isCloneInto, Step.isBuildIn, Step.isCopyTo, List.countP_cons]

theorem homebrew_within_pipeline (flag : String) (features : List String) :
    homebrewSteps flag features <:+: pipelineSteps flag features := by
  refine ⟨hekateSteps flag ++ atmosphereSteps flag ++ checkpointSteps flag features,
    layeredfsSteps features ++ sigpatchSteps features ++ ftpdSteps flag features
      ++ tinfoilSteps flag features ++ [Step.create "sd_root/bootloader/hekate_ipl.ini"], ?_⟩
  simp [pipelineSteps, List.append_assoc]

theorem cycles_within_homebrew (flag : String) (features : List String) :
    (if ("1" ∈ features ∨ "2" ∈ features ∨ "6" ∈ features) ∧ "no-hbloader" ∉ features
      then hbloaderCycle flag else []) <:+: homebrewSteps flag features
    ∧ (if "1" ∈ features ∨ "2" ∈ features ∨ "6" ∈ features
      then hbmenuCycle flag else []) <:+: homebrewSteps flag features := by
  simp only [homebrewSteps, inArray_eq_decide]
  by_cases h1 : "1" ∈ features <;> by_cases h2 : "2" ∈ features <;>
    by_cases h6 : "6" ∈ features <;> by_cases hn : "no-hbloader" ∈ features <;>
    simp [h1, h2, h6, hn, List.infix_refl] <;>
    exact ⟨⟨[], hbmenuCycle flag, by simp⟩, ⟨hbloaderCycle flag, [], by simp⟩⟩

/-- C8: in the step sequence of a run where every step succeeds, the clone, the
build and the copy of the homebrew loader each occur exactly once when at least one
of "1", "2", "6" is selected and `no-hbloader` is not, and not at all otherwise;
those of the homebrew menu each occur exactly once when at least one of "1", "2",
"6" is selected, and not at all otherwise; when they occur, the three steps of a
cycle stand next to one another in the order clone, build, copy. -/
theorem C8_one_homebrew_cycle (flag : String) (features : List String) :
    (pipelineSteps flag features).countP (Step.isCloneInto "build/hbloader")
        = (if ("1" ∈ features ∨ "2" ∈ features ∨ "6" ∈ features) ∧ "no-hbloader" ∉ features
            then 1 else 0)
    ∧ (pipelineSteps flag features).countP (Step.isBuildIn "build/hbloader")
        = (if ("1" ∈ features ∨ "2" ∈ features ∨ "6" ∈ features) ∧ "no-hbloader" ∉ features
            then 1 else 0)
    ∧ (pipelineSteps flag features).countP (Step.isCopyTo "sd_root/atmosphere/hbl.nsp")
        = (if ("1" ∈ features ∨ "2" ∈ features ∨ "6" ∈ features) ∧ "no-hbloader" ∉ features
            then 1 else 0)
    ∧ (pipelineSteps flag features).countP (Step.isCloneInto "build/hbmenu")
        = (if "1" ∈ features ∨ "2" ∈ features ∨ "6" ∈ features then 1 else 0)
    ∧ (pipelineSteps flag features).countP (Step.isBuildIn "build/hbmenu")
        = (if "1" ∈ features ∨ "2" ∈ features ∨ "6" ∈ features then 1 else 0)
    ∧ (pipelineSteps flag features).countP (Step.isCopyTo "sd_root/hbmenu.nro")
        = (if "1" ∈ features ∨ "2" ∈ features ∨ "6" ∈ features then 1 else 0)
    ∧ (if ("1" ∈ features ∨ "2" ∈ features ∨ "6" ∈ features) ∧ "no-hbloader" ∉ features
        then hbloaderCycle flag else []) <:+: pipelineSteps flag features
    ∧ (if "1" ∈ features ∨ "2" ∈ features ∨ "6" ∈ features
        then hbmenuCycle flag else []) <:+: pipelineSteps flag features := by
  have hc := homebrew_countP flag features
  have hi := cycles_within_homebrew flag features
  have hrest : ∀ p ∈ homebrewObservations,
      (pipelineSteps flag features).countP p = (homebrewSteps flag features).countP p := by
    intro p hp
    obtain ⟨e1, e2, e3, e4, e5, e6, e7, e8⟩ := other_blocks_countP p hp flag features
    rw [pipeline_countP, e1, e2, e3, e4, e5, e6, e7, e8]
    simp
  refine ⟨?_, ?_, ?_, ?_, ?_, ?_, hi.1.trans (homebrew_within_pipeline flag features),
    hi.2.trans (homebrew_within_pipeline flag features)⟩
  · rw [hrest _ (by simp [homebrewObservations])]; exact hc.1
  · rw [hrest _ (by simp [homebrewObservations])]; exact hc.2.1
  · rw [hrest _ (by simp [homebrewObservations])]; exact hc.2.2.1
  · rw [hrest _ (by simp [homebrewObservations])]; exact hc.2.2.2.1
  · rw [hrest _ (by simp [homebrewObservations])]; exact hc.2.2.2.2.1
  · rw [hrest _ (by simp [homebrewObservations])]; exact hc.2.2.2.2.2

theorem splitChars_no_sep (sep : Char) : ∀ cs : List Char, sep ∉ cs → splitChars sep cs = [cs]
  | [], _ => by simp [splitChars]
  | c :: cs, h => by
    have hc : ¬ c = sep := fun e => h (by simp [e])
    have hcs : sep ∉ cs := fun e => h (List.mem_cons_of_mem _ e)
    simp [splitChars, hc, splitChars_no_sep sep cs hcs]

theorem splitChars_append_sep (sep : Char) (name : List Char) (hname : sep ∉ name) :
    ∀ cs : List Char, splitChars sep (cs ++ sep :: name) = splitChars sep cs ++ [name]
  | [] => by simp [splitChars, splitChars_no_sep sep name hname]
  | c :: cs => by
    have ih := splitChars_append_sep sep name hname cs
    by_cases hc : c = sep
    · simp [splitChars, hc, ih]
    · have hstep : splitChars sep (c :: (cs ++ sep :: name)) =
          (match splitChars sep (cs ++ sep :: name) with
           | [] => [[c]]
           | tok :: toks => (c :: tok) :: toks) := by
        simp only [splitChars, hc, if_false]
      have hhead : splitChars sep (c :: cs) =
          (match splitChars sep cs with
           | [] => [[c]]
           | tok :: toks => (c :: tok) :: toks) := by
        simp only [splitChars, hc, if_false]
      rw [List.cons_append, hstep, hhead, ih]
      cases hs : splitChars sep cs with
      | nil => exact absurd hs (splitChars_ne_nil sep cs)
      | cons tok toks => simp

theorem pathComponents_child (dst name : String) (hname : '/' ∉ name.data) :
    pathComponents (dst ++ "/" ++ name) = pathComponents dst ++ [name] := by
  have hdata : (dst ++ "/" ++ name).data = dst.data ++ '/' :: name.data := by
    simp [String.data_append]
  simp [pathComponents, hdata, splitChars_append_sep '/' name.data hname]

theorem pathComponents_ne_nil (path : String) : pathComponents path ≠ [] := by
  simp [pathComponents, splitChars_ne_nil]

theorem mem_dirAncestors_self : ∀ comps : List String, comps ≠ [] → comps ∈ dirAncestors comps
  | [], h => absurd rfl h
  | [d], _ => by simp [dirAncestors]
  | d :: e :: rest, _ => by
    have ih := mem_dirAncestors_self (e :: rest) (by simp)
    simp only [dirAncestors, List.mem_cons, List.mem_map] at ih ⊢
    exact Or.inr ⟨e :: rest, by simpa [dirAncestors] using ih, rfl⟩

/-- The files that `copyFolder` writes go into the directory that its own
`os.MkdirAll(dst)` makes. -/
theorem copyFolder_stepReady (listing : String → List String)
    (hnames : ∀ src, ∀ name ∈ listing src, '/' ∉ name.data)
    (dirs : List (List String)) (src dst : String) :
    stepReady listing dirs (Step.copyFolder src dst) = true := by
  simp only [stepReady, stepWrites, stepCreates, List.all_eq_true, List.mem_map,
    Bool.or_eq_true, parentCreated, decide_eq_true_eq]
  rintro file ⟨name, hmem, rfl⟩
  right
  rw [pathComponents_child dst name (hnames src name hmem), List.dropLast_concat]
  exact List.mem_append.mpr (Or.inr (mem_dirAncestors_self _ (pathComponents_ne_nil dst)))

theorem stepReady_mono (listing : String → List String) (st : Step)
    (dirs dirs2 : List (List String)) (hsub : ∀ d ∈ dirs, d ∈ dirs2)
    (h : stepReady listing dirs st = true) : stepReady listing dirs2 st = true := by
  simp only [stepReady, List.all_eq_true, Bool.or_eq_true, parentCreated,
    decide_eq_true_eq] at h ⊢
  intro file hf
  rcases h file hf with hnot | hin
  · exact Or.inl hnot
  · rcases List.mem_append.mp hin with hd | hd
    · exact Or.inr (List.mem_append.mpr (Or.inl (hsub _ hd)))
    · exact Or.inr (List.mem_append.mpr (Or.inr hd))

theorem parentsReady_mono (listing : String → List String) :
    ∀ (steps : List Step) (dirs dirs2 : List (List String)),
    (∀ d ∈ dirs, d ∈ dirs2) → parentsReady listing dirs steps = true →
      parentsReady listing dirs2 steps = true
  | [], _, _, _, _ => by simp [parentsReady]
  | st :: rest, dirs, dirs2, hsub, h => by
    simp only [parentsReady, Bool.and_eq_true] at h ⊢
    refine ⟨stepReady_mono listing st dirs dirs2 hsub h.1, ?_⟩
    refine parentsReady_mono listing rest _ _ ?_ h.2
    intro d hd
    rcases List.mem_append.mp hd with hd | hd
    · exact List.mem_append.mpr (Or.inl (hsub d hd))
    · exact List.mem_append.mpr (Or.inr hd)

theorem parentsReady_append (listing : String → List String) (a b : List Step)
    (dirs : List (List String)) :
    parentsReady listing dirs (a ++ b) =
      (parentsReady listing dirs a
        && parentsReady listing (dirs ++ a.flatMap stepCreates) b) := by
  induction a generalizing dirs with
  | nil => simp [parentsReady]
  | cons st rest ih =>
    simp [parentsReady, ih, Bool.and_assoc, List.append_assoc]

theorem parentsReady_append_of (listing : String → List String) (a b : List Step)
    (dirs : List (List String))
    (ha : parentsReady listing dirs a = true) (hb : parentsReady listing dirs b = true) :
    parentsReady listing dirs (a ++ b) = true := by
  rw [parentsReady_append, ha, Bool.true_and]
  exact parentsReady_mono listing b dirs _ (fun d hd => List.mem_append.mpr (Or.inl hd)) hb

theorem parentsReady_cons_of (listing : String → List String) (st : Step) (rest : List Step)
    (dirs : List (List String))
    (hst : stepReady listing dirs st = true) (hrest : parentsReady listing dirs rest = true) :
    parentsReady listing dirs (st :: rest) = true := by
  simp only [parentsReady, hst, Bool.true_and]
  exact parentsReady_mono listing rest dirs _ (fun d hd => List.mem_append.mpr (Or.inl hd)) hrest

theorem baseDirs_eq (flag : String) :
    (hekateSteps flag ++ atmosphereSteps flag).flatMap stepCreates = baseDirs := by
  simp only [hekateSteps, atmosphereSteps, List.cons_append, List.nil_append, List.flatMap_cons,
    List.flatMap_nil, stepCreates, List.nil_append, List.append_nil]
  decide

theorem base_ready (listing : String → List String) (flag : String) :
    parentsReady listing [] (hekateSteps flag ++ atmosphereSteps flag) = true := by
  simp only [hekateSteps, atmosphereSteps, List.cons_append, List.nil_append, parentsReady,
    stepReady, stepWrites, stepCreates]
  decide

theorem checkpoint_ready (listing : String → List String) (flag : String)
    (features : List String) :
    parentsReady listing baseDirs (checkpointSteps flag features) = true := by
  simp only [checkpointSteps]
  split
  · simp only [parentsReady, stepReady, stepWrites, stepCreates]
    decide
  · rfl

theorem homebrew_ready (listing : String → List String) (flag : String)
    (features : List String) :
    parentsReady listing baseDirs (homebrewSteps flag features) = true := by
  simp only [homebrewSteps, hbloaderCycle, hbmenuCycle]
  split
  · split
    · simp only [List.cons_append, List.nil_append, parentsReady, stepReady, stepWrites,
        stepCreates]
      decide
    · simp only [List.cons_append, List.nil_append, parentsReady, stepReady, stepWrites,
        stepCreates]
      decide
  · rfl

theorem layeredfs_ready (listing : String → List String) (features : List String) :
    parentsReady listing baseDirs (layeredfsSteps features) = true := by
  simp only [layeredfsSteps]
  split
  · simp only [parentsReady, stepReady, stepWrites, stepCreates]
    decide
  · rfl

theorem sigpatch_ready (listing : String → List String)
    (hnames : ∀ src, ∀ name ∈ listing src, '/' ∉ name.data) (features : List String) :
    parentsReady listing baseDirs (sigpatchSteps features) = true := by
  simp only [sigpatchSteps]
  split
  · refine parentsReady_cons_of listing _ _ _ rfl ?_
    exact parentsReady_cons_of listing _ _ _
      (copyFolder_stepReady listing hnames _ _ _) rfl
  · rfl

theorem ftpd_ready (listing : String → List String)
    (hnames : ∀ src, ∀ name ∈ listing src, '/' ∉ name.data) (flag : String)
    (features : List String) :
    parentsReady listing baseDirs (ftpdSteps flag features) = true := by
  simp only [ftpdSteps]
  split
  · refine parentsReady_cons_of listing _ _ _ rfl ?_
    refine parentsReady_cons_of listing _ _ _ rfl ?_
    refine parentsReady_cons_of listing _ _ _ (copyFolder_stepReady listing hnames _ _ _) ?_
    simp only [parentsReady, stepReady, stepWrites, stepCreates]
    decide
  · rfl

theorem tinfoil_ready (listing : String → List String) (flag : String)
    (features : List String) :
    parentsReady listing baseDirs (tinfoilSteps flag features) = true := by
  simp only [tinfoilSteps]
  split
  · simp only [parentsReady, stepReady, stepWrites, stepCreates]
    decide
  · rfl

theorem config_ready (listing : String → List String) :
    parentsReady listing baseDirs [Step.create "sd_root/bootloader/hekate_ipl.ini"] = true := by
  simp only [parentsReady, stepReady, stepWrites, stepCreates]
  decide

theorem sampleListing_names (src : String) : ∀ name ∈ sampleListing src, '/' ∉ name.data := by
  intro name hmem
  simp only [sampleListing] at hmem
  split at hmem
  · simp only [List.mem_cons, List.mem_singleton, List.not_mem_nil, or_false] at hmem
    rcases hmem with rfl | rfl <;> decide
  · split at hmem
    · simp only [List.mem_singleton] at hmem
      subst hmem
      decide
    · simp at hmem

/-- The check finds what it looks for: a copy into a directory below `sd_root`
that no earlier step has made, and a child of a folder copy whose name would lead
into a directory that was not made. -/
theorem parentsReady_finds_missing_parent :
    parentsReady sampleListing []
        [Step.mkdirAll "sd_root/cfw", Step.copy "a" "sd_root/switch/a"] = false
    ∧ parentsReady sampleListing [] [Step.copy "a" "sd_root/a"] = false
    ∧ parentsReady (fun _ => ["sub/a.ips"]) []
        [Step.copyFolder "fake_tickets" "sd_root/atmosphere/exefs_patches/fake_tickets"]
        = false := by
  decide

/-- C10: in a run that starts with no `sd_root` and in which every step succeeds,
for every token list (the No-GC flag has no part in the steps) and for every
content of the copied folders (`listing src` is the list of file names that
`ioutil.ReadDir(src)` returns, none of which holds a slash), every file that a step
writes below `sd_root` (every destination of `copy`, every child that `copyFolder`
writes into its destination, and `bootloader/hekate_ipl.ini`) goes into a directory
that an earlier step of the same run has made with `os.MkdirAll` (as the directory
named or as one above it) or that `copyFolder` has made itself; and each block of
an optional feature is served by the directories of the two blocks that always run
together with its own. -/
theorem C10_parent_directories_exist (listing : String → List String)
    (hnames : ∀ src, ∀ name ∈ listing src, '/' ∉ name.data)
    (flag : String) (features : List String) :
    parentsReady listing [] (pipelineSteps flag features) = true
    ∧ (hekateSteps flag ++ atmosphereSteps flag).flatMap stepCreates = baseDirs
    ∧ parentsReady listing baseDirs (checkpointSteps flag features) = true
    ∧ parentsReady listing baseDirs (homebrewSteps flag features) = true
    ∧ parentsReady listing baseDirs (layeredfsSteps features) = true
    ∧ parentsReady listing baseDirs (sigpatchSteps features) = true
    ∧ parentsReady listing baseDirs (ftpdSteps flag features) = true
    ∧ parentsReady listing baseDirs (tinfoilSteps flag features) = true
    ∧ parentsReady listing baseDirs [Step.create "sd_root/bootloader/hekate_ipl.ini"] = true := by
  refine ⟨?_, baseDirs_eq flag, checkpoint_ready listing flag features,
    homebrew_ready listing flag features, layeredfs_ready listing features,
    sigpatch_ready listing hnames features, ftpd_ready listing hnames flag features,
    tinfoil_ready listing flag features, config_ready listing⟩
  have hrest : parentsReady listing baseDirs
      (checkpointSteps flag features ++ (homebrewSteps flag features
        ++ (layeredfsSteps features ++ (sigpatchSteps features
        ++ (ftpdSteps flag features ++ (tinfoilSteps flag features
        ++ [Step.create "sd_root/bootloader/hekate_ipl.ini"])))))) = true := by
    refine parentsReady_append_of listing _ _ _ (checkpoint_ready listing flag features) ?_
    refine parentsReady_append_of listing _ _ _ (homebrew_ready listing flag features) ?_
    refine parentsReady_append_of listing _ _ _ (layeredfs_ready listing features) ?_
    refine parentsReady_append_of listing _ _ _ (sigpatch_ready listing hnames features) ?_
    refine parentsReady_append_of listing _ _ _ (ftpd_ready listing hnames flag features) ?_
    exact parentsReady_append_of listing _ _ _ (tinfoil_ready listing flag features)
      (config_ready listing)
  have hall : pipelineSteps flag features =
      (hekateSteps flag ++ atmosphereSteps flag)
      ++ (checkpointSteps flag features ++ (homebrewSteps flag features
        ++ (layeredfsSteps features ++ (sigpatchSteps features
        ++ (ftpdSteps flag features ++ (tinfoilSteps flag features
        ++ [Step.create "sd_root/bootloader/hekate_ipl.ini"])))))) := by
    simp only [pipelineSteps, List.append_assoc]
  rw [hall, parentsReady_append, base_ready, baseDirs_eq, List.nil_append, hrest]
  rfl

/-- C10 at the selection `["4", "5"]`, with two patch files and one sound file
to copy. -/
theorem C10_parent_directories_exist_witness :
    (∀ src, ∀ name ∈ sampleListing src, '/' ∉ name.data)
    ∧ (parentsReady sampleListing [] (pipelineSteps "-j4" ["4", "5"]) = true
      ∧ (hekateSteps "-j4" ++ atmosphereSteps "-j4").flatMap stepCreates = baseDirs
      ∧ parentsReady sampleListing baseDirs (checkpointSteps "-j4" ["4", "5"]) = true
      ∧ parentsReady sampleListing baseDirs (homebrewSteps "-j4" ["4", "5"]) = true
      ∧ parentsReady sampleListing baseDirs (layeredfsSteps ["4", "5"]) = true
      ∧ parentsReady sampleListing baseDirs (sigpatchSteps ["4", "5"]) = true
      ∧ parentsReady sampleListing baseDirs (ftpdSteps "-j4" ["4", "5"]) = true
      ∧ parentsReady sampleListing baseDirs (tinfoilSteps "-j4" ["4", "5"]) = true
      ∧ parentsReady sampleListing baseDirs
          [Step.create "sd_root/bootloader/hekate_ipl.ini"] = true) :=
  ⟨sampleListing_names,
   C10_parent_directories_exist sampleListing sampleListing_names "-j4" ["4", "5"]⟩

/-! ## Claim on the failures of `copyFolder` -/

theorem copyFolder_error (fs : FileSystem) (src dst : String) :
    (copyFolder fs src dst).1 =
      (match ioutilReadDir fs src with
       | .error err => some err
       | .ok _ => none) := by
  simp only [copyFolder]
  cases ioutilReadDir fs src <;> rfl

/-- C9, the code at the failing inputs: the only error `copyFolder` ever returns
is that of `ioutil.ReadDir`.  With an unreadable patch file the copy of that child
fails, `copyFolder` returns nil and the feature-4 block goes on with no file
deployed; with a destination directory that cannot be made `os.MkdirAll` fails,
`copyFolder` returns nil and the block goes on.  A failure of a `copy` called from
`main` itself does end the run. -/
theorem C9_copyFolder_drops_failures :
    (∀ (fs : FileSystem) (src dst : String),
        (copyFolder fs src dst).1 =
          (match ioutilReadDir fs src with
           | .error err => some err
           | .ok _ => none))
    ∧ (copy (osMkdirAll fsUnreadablePatch "sd_root/atmosphere/exefs_patches/fake_tickets").2
          "fake_tickets/a.ips" "sd_root/atmosphere/exefs_patches/fake_tickets/a.ips").1
        = some "permission denied"
    ∧ (copyFolder fsUnreadablePatch "fake_tickets"
          "sd_root/atmosphere/exefs_patches/fake_tickets").1 = none
    ∧ sigpatchDeploy fsUnreadablePatch = .running
        { dirs := ["fake_tickets", "sd_root", "sd_root/atmosphere", "sd_root/cfw",
                   "sd_root/atmosphere/exefs_patches",
                   "sd_root/atmosphere/exefs_patches/fake_tickets"],
          files := [("fake_tickets/a.ips", "PATCH")],
          denied := ["fake_tickets/a.ips"] }
    ∧ (osMkdirAll fsNoPatchDir "sd_root/atmosphere/exefs_patches/fake_tickets").1
        = some "permission denied"
    ∧ (copyFolder fsNoPatchDir "fake_tickets"
          "sd_root/atmosphere/exefs_patches/fake_tickets").1 = none
    ∧ sigpatchDeploy fsNoPatchDir = .running
        { dirs := ["fake_tickets", "sd_root", "sd_root/atmosphere", "sd_root/cfw",
                   "sd_root/atmosphere/exefs_patches"],
          files := [("fake_tickets/a.ips", "PATCH")],
          denied := ["sd_root/atmosphere/exefs_patches/fake_tickets"] }
    ∧ ftpdDeploy fsMissingKip = .aborted "copying sys-ftpd" "no such file or directory" := by
  exact ⟨copyFolder_error, by decide, by decide, by decide, by decide, by decide, by decide,
    by decide⟩

end LaunchpadNX


